import Mathlib

/-!
# Verification of the Pake single-instance URL-dispatch and window-lifecycle core

Shallow embedding of `src-tauri/src/lib.rs`. Rust strings are modelled as
`List Char`; `Option`-returning Rust functions become `Option`-returning Lean
functions. The main embedded pieces are:

* `extract_url_arg` — the URL matcher (lib.rs lines 28–50);
* `close_requested` — the close-request handler (lib.rs lines 192–224);
* `window_state_flags` — the window-state plugin configuration (lines 70–77);
* `setup_show_task` — the deferred window-show task (lines 63–67, 166–188);
* `run_ids` / `window_label` — the second-instance window-label counter
  (lines 13, 96–97);
* `second_instance_handler` — the single-instance callback (lines 93–117).
-/

namespace Pake

/-! ## Definitions: the URL matcher (lib.rs 28–50) -/

/-- The characters of `"https://"`. -/
def httpsChars : List Char := "https://".data

/-- The characters of `"http://"`. -/
def httpChars : List Char := "http://".data

/-- Rust `str::strip_prefix`, on character lists: if `p` is an initial
segment of `s`, return the remainder, else `none`. -/
def stripScheme : List Char → List Char → Option (List Char)
  | [], s => some s
  | _ :: _, [] => none
  | p :: ps, c :: cs => if p = c then stripScheme ps cs else none

/-- Rust `str::starts_with`, via `stripScheme`. -/
def startsWithChars (p s : List Char) : Bool := (stripScheme p s).isSome

/-- Rust `str::split(sep)` as a list of segments: splitting the empty string
yields one empty segment, and every occurrence of `sep` starts a new
segment. -/
def splitChar (sep : Char) : List Char → List (List Char)
  | [] => [[]]
  | c :: cs =>
    if c = sep then [] :: splitChar sep cs
    else
      match splitChar sep cs with
      | [] => [[c]]
      | s :: ss => (c :: s) :: ss

/-- Rust `s.split('/').next()`: the first segment of the split. -/
def splitNext (s : List Char) : Option (List Char) := (splitChar '/' s).head?

/-- The `allowed_host` computation of `extract_url_arg` (lib.rs 29–33):
strip a leading `https://`, or else `http://`, take the segment before the
first `/`, and default to the empty string. -/
def allowed_host (config_url : List Char) : List Char :=
  (((stripScheme httpsChars config_url).orElse
      (fun _ => stripScheme httpChars config_url)).bind splitNext).getD []

/-- The per-argument test of `extract_url_arg`'s `find` closure
(lib.rs 37–48). -/
def arg_matches (config_url arg : List Char) : Bool :=
  if startsWithChars httpsChars arg || startsWithChars httpChars arg then
    match ((stripScheme httpsChars arg).orElse
        (fun _ => stripScheme httpChars arg)).bind splitNext with
    | some host => host == allowed_host config_url
    | none => false
  else false

/-- `extract_url_arg` (lib.rs 28–50): skip the first argument, then return
the first argument that passes `arg_matches`. -/
def extract_url_arg (args : List (List Char)) (config_url : List Char) :
    Option (List Char) :=
  (args.drop 1).find? (arg_matches config_url)

/-! ## Definitions: the matcher as the specification words it

These definitions follow the spec's sentences (spec §4.1), to be compared
with `extract_url_arg`, which follows the source. -/

/-- Truncation at the first `/`: the part of `s` strictly before the first
`/`, or all of `s` if it has none. -/
def firstSeg (s : List Char) : List Char := s.takeWhile (fun c => c != '/')

/-- `allowed_host` as the spec words it: `config_url` with a leading
`https://` or `http://` stripped and truncated at the first `/`; the empty
string if `config_url` has neither prefix. -/
def claim_allowed_host (config_url : List Char) : List Char :=
  if startsWithChars httpsChars config_url then firstSeg (config_url.drop 8)
  else if startsWithChars httpChars config_url then firstSeg (config_url.drop 7)
  else []

/-- The host portion of an argument as the spec words it: stripped prefix,
truncated at first `/`. -/
def claim_host (arg : List Char) : List Char :=
  if startsWithChars httpsChars arg then firstSeg (arg.drop 8)
  else if startsWithChars httpChars arg then firstSeg (arg.drop 7)
  else []

/-- The matching condition as the spec words it: starts with `https://` or
`http://`, and the host portion equals `allowed_host`. -/
def claim_pred (config_url arg : List Char) : Bool :=
  (startsWithChars httpsChars arg || startsWithChars httpChars arg) &&
    (claim_host arg == claim_allowed_host config_url)

/-! ## Definitions: window-label counter (lib.rs 13, 96–97)

`WINDOW_COUNTER` starts at 1; each matched second-instance launch performs a
`fetch_add(1)` (returning the old value) and formats the label
`format!("pake-{}", window_id)`. Decimal formatting is modelled by
`natDigits`. -/

/-- The decimal digit characters, as Rust's integer `Display` emits them. -/
def digitChar : Nat → Char
  | 0 => '0'
  | 1 => '1'
  | 2 => '2'
  | 3 => '3'
  | 4 => '4'
  | 5 => '5'
  | 6 => '6'
  | 7 => '7'
  | 8 => '8'
  | 9 => '9'
  | _ => '*'

/-- Fuel-driven decimal formatting: most significant digit first. -/
def natDigitsAux : Nat → Nat → List Char
  | 0, _ => []
  | fuel + 1, n =>
    if n < 10 then [digitChar n]
    else natDigitsAux fuel (n / 10) ++ [digitChar (n % 10)]

/-- The decimal representation of `n`, as `format!("{}", n)` prints it. -/
def natDigits (n : Nat) : List Char := natDigitsAux (n + 1) n

/-- The value a digit string denotes, used to invert `natDigits`. -/
def digitsVal (ds : List Char) : Nat :=
  ds.foldl (fun a c => 10 * a + (c.toNat - 48)) 0

/-- `format!("pake-{}", window_id)` (lib.rs 97). -/
def window_label (window_id : Nat) : List Char :=
  "pake-".data ++ natDigits window_id

/-- The initial value of `WINDOW_COUNTER` (lib.rs 13). -/
def WINDOW_COUNTER_INIT : Nat := 1

/-- The modulus of `usize` arithmetic on the 64-bit targets the application
ships for: `WINDOW_COUNTER` is an `AtomicUsize`. -/
def USIZE_MOD : Nat := 2 ^ 64

/-- `AtomicUsize::fetch_add(1, ...)`: returns the old value and stores the
incremented value, wrapping around at the word size. -/
def fetch_add_one (c : Nat) : Nat × Nat := (c, (c + 1) % USIZE_MOD)

/-- A run of second-instance launches against the counter: each launch whose
arguments carry a matching URL does a wrapping `fetch_add(1)` and is issued
the old counter value as its `window_id`; a launch with no matching URL
leaves the counter untouched. Returns the final counter and the issued ids
in order. -/
def run_ids : Nat → List Bool → Nat × List Nat
  | c, [] => (c, [])
  | c, true :: ms =>
    let step := fetch_add_one c
    let r := run_ids step.2 ms
    (r.1, step.1 :: r.2)
  | c, false :: ms => run_ids c ms

/-- The labels issued over a run of second-instance launches. -/
def run_labels (c : Nat) (ms : List Bool) : List (List Char) :=
  (run_ids c ms).2.map window_label

/-! ## Definitions: platforms and window operations -/

/-- The compile-time platform (`cfg(target_os = ...)`). -/
inductive Platform
  | macos
  | linux
  | other
deriving DecidableEq

/-- One observable window operation of a deferred task. -/
inductive WinOp
  | setFullscreenOp (b : Bool)
  | sleepOp (ms : Nat)
  | setFocusOp
  | minimizeOp
  | hideOp
  | showOp
deriving DecidableEq

/-! ## Definitions: the close-request handler (lib.rs 192–224) -/

/-- The observable outcome of one close request: whether the process exits
(and with which code), whether `api.prevent_close()` was called, and the
operations of the spawned hide task in order. -/
structure CloseOutcome where
  exited : Option Nat
  handled : Bool
  ops : List WinOp
deriving DecidableEq

/-- The `CloseRequested` handler (lib.rs 192–224). With `hide_on_close`,
a task is spawned that, on macOS, exits fullscreen and sleeps 900 ms when
fullscreen; on Linux, exits fullscreen and refocuses when fullscreen; then
minimizes on every platform but macOS; then hides — and `prevent_close` is
called. Without `hide_on_close`, `std::process::exit(0)` runs. The window's
`is_fullscreen()` result is the `is_fullscreen` parameter. -/
def close_requested (hide_on_close : Bool) (p : Platform)
    (is_fullscreen : Bool) : CloseOutcome :=
  if hide_on_close then
    { exited := none
      handled := true
      ops :=
        (if p = Platform.macos then
          (if is_fullscreen then
            [WinOp.setFullscreenOp false, WinOp.sleepOp 900]
          else [])
        else []) ++
        (if p = Platform.linux then
          (if is_fullscreen then
            [WinOp.setFullscreenOp false, WinOp.setFocusOp]
          else [])
        else []) ++
        (if p ≠ Platform.macos then [WinOp.minimizeOp] else []) ++
        [WinOp.hideOp] }
  else { exited := some 0, handled := false, ops := [] }

/-! ## Definitions: window-state plugin flags (lib.rs 70–77) -/

/-- Modelled from the spec: the flag universe of the external window-state
plugin's `StateFlags` bitflags (the plugin's source is not part of this
repository); the spec speaks of "all normal flags except visibility" and
"only the fullscreen flag". -/
inductive Flag
  | size
  | position
  | maximized
  | visible
  | decorations
  | fullscreen
deriving DecidableEq

/-- A `StateFlags` value, as the set of flags it contains. -/
def StateFlags := Flag → Bool

/-- `StateFlags::all()`. -/
def StateFlags.all : StateFlags := fun _ => true

/-- `StateFlags::FULLSCREEN`. -/
def StateFlags.FULLSCREEN : StateFlags := fun f => f == Flag.fullscreen

/-- `StateFlags::VISIBLE`. -/
def StateFlags.VISIBLE : StateFlags := fun f => f == Flag.visible

/-- Bitflags intersection `&`. -/
def StateFlags.band (a b : StateFlags) : StateFlags := fun f => a f && b f

/-- Bitflags complement `!`. -/
def StateFlags.bnot (a : StateFlags) : StateFlags := fun f => !(a f)

/-- The `with_state_flags` argument (lib.rs 71–76): `FULLSCREEN` when the
configured initial state is fullscreen, else `all() & !VISIBLE`. -/
def window_state_flags (init_fullscreen : Bool) : StateFlags :=
  if init_fullscreen then StateFlags.FULLSCREEN
  else StateFlags.all.band StateFlags.VISIBLE.bnot

/-! ## Definitions: the deferred window-show task (lib.rs 63–67, 166–188) -/

/-- `WINDOW_SHOW_DELAY` (lib.rs 15). -/
def WINDOW_SHOW_DELAY : Nat := 50

/-- `start_to_tray && show_system_tray` (lib.rs 67): start-to-tray is only
valid when the tray is enabled. -/
def effective_start_to_tray (start_to_tray show_system_tray : Bool) : Bool :=
  start_to_tray && show_system_tray

/-- The Linux-only follow-up of the show task (lib.rs 173–186): enter
fullscreen and refocus when configured fullscreen, else wait 30 ms and
refocus. Empty on other platforms. -/
def linux_focus_fixup (p : Platform) (init_fullscreen : Bool) : List WinOp :=
  if p = Platform.linux then
    (if init_fullscreen then [WinOp.setFullscreenOp true, WinOp.setFocusOp]
     else [WinOp.sleepOp 30, WinOp.setFocusOp])
  else []

/-- The deferred show task spawned at the end of setup (lib.rs 166–188):
none when `start_to_tray` is effective, else sleep `WINDOW_SHOW_DELAY`,
show, then the Linux fix-up. -/
def setup_show_task (p : Platform)
    (init_fullscreen start_to_tray show_system_tray : Bool) :
    Option (List WinOp) :=
  if !(effective_start_to_tray start_to_tray show_system_tray) then
    some (WinOp.sleepOp WINDOW_SHOW_DELAY :: WinOp.showOp ::
      linux_focus_fixup p init_fullscreen)
  else none

/-! ## Definitions: the single-instance callback (lib.rs 93–117) -/

/-- The observable outcome of one second-instance callback run. -/
inductive SIResult
  | newWindow (label url : List Char)
  | swallowed
  | focusPrimary
  | noop
  | panicked
deriving DecidableEq

/-- Modelled from the spec: the external `url::Url::parse` step, which the
spec asserts succeeds on every matcher-accepted string ("malformed URL
parse, which cannot occur because the match already validated the
`http(s)://host` shape", spec §4.2); the `url` crate's source is not part
of this repository. -/
def url_parse_ok (s : List Char) : Bool :=
  startsWithChars httpsChars s || startsWithChars httpChars s

/-- The single-instance callback (lib.rs 93–117): if a URL is extracted,
`fetch_add` the counter (wrapping), parse the URL (`.unwrap()` panics on
failure), then build the window — a failed build (`if let Ok` with no
else) yields no window and no error; with no extracted URL, show/focus the
primary window when it exists. `parse_ok` abstracts the external parser
and `build_ok` the OS window build. -/
def second_instance_handler (args : List (List Char)) (config_url : List Char)
    (counter : Nat) (parse_ok : List Char → Bool)
    (build_ok primary_exists : Bool) : Nat × SIResult :=
  match extract_url_arg args config_url with
  | some url =>
    let step := fetch_add_one counter
    let window_id := step.1
    if parse_ok url then
      if build_ok then (step.2, SIResult.newWindow (window_label window_id) url)
      else (step.2, SIResult.swallowed)
    else (step.2, SIResult.panicked)
  | none =>
    (counter, if primary_exists then SIResult.focusPrimary else SIResult.noop)

/-! ## Lemmas about the matcher -/

theorem stripScheme_eq_some {p s r : List Char} :
    stripScheme p s = some r ↔ s = p ++ r := by
  induction p generalizing s with
  | nil =>
    cases s <;> simp [stripScheme]
  | cons c cs ih =>
    cases s with
    | nil => simp [stripScheme]
    | cons d ds =>
      by_cases h : c = d
      · subst h
        simp [stripScheme, ih]
      · simp only [stripScheme, if_neg h, List.cons_append, List.cons.injEq]
        constructor
        · intro hf; exact absurd hf (by simp)
        · rintro ⟨rfl, _⟩; exact absurd rfl h

theorem startsWithChars_iff {p s : List Char} :
    startsWithChars p s = true ↔ ∃ r, s = p ++ r := by
  unfold startsWithChars
  cases h : stripScheme p s with
  | none =>
    simp only [Option.isSome_none]
    constructor
    · intro hf; exact absurd hf (by simp)
    · rintro ⟨r, rfl⟩
      rw [stripScheme_eq_some.mpr rfl] at h
      exact absurd h (by simp)
  | some r =>
    simp only [Option.isSome_some, true_iff]
    exact ⟨r, stripScheme_eq_some.mp h⟩

/-- The first segment of `splitChar` is the portion before the first
separator. -/
theorem splitChar_head (sep : Char) (s : List Char) :
    (splitChar sep s).head? = some (s.takeWhile (fun c => c != sep)) := by
  induction s with
  | nil => rfl
  | cons c cs ih =>
    by_cases h : c = sep
    · subst h
      simp [splitChar, List.takeWhile]
    · unfold splitChar
      simp only [if_neg h]
      cases hs : splitChar sep cs with
      | nil => rw [hs] at ih; exact absurd ih (by simp)
      | cons t ts =>
        rw [hs] at ih
        simp only [List.head?, Option.some.injEq] at ih
        have hne : (c != sep) = true := by simp [h]
        simp [List.takeWhile, ih, hne, List.head?]

theorem splitNext_eq (s : List Char) :
    splitNext s = some (s.takeWhile (fun c => c != '/')) :=
  splitChar_head '/' s

theorem length_httpsChars : httpsChars.length = 8 := rfl

theorem length_httpChars : httpChars.length = 7 := rfl

theorem stripScheme_drop {p s r : List Char} (h : stripScheme p s = some r) :
    s.drop p.length = r := by
  rw [stripScheme_eq_some.mp h]
  exact List.drop_left p r

/-- The source's `allowed_host` equals the spec's wording of it. -/
theorem allowed_host_eq_claim (config_url : List Char) :
    allowed_host config_url = claim_allowed_host config_url := by
  unfold allowed_host claim_allowed_host startsWithChars
  cases hs : stripScheme httpsChars config_url with
  | some r =>
    have hd : config_url.drop 8 = r := by
      have := stripScheme_drop hs
      rwa [length_httpsChars] at this
    simp [Option.orElse, splitNext_eq, hd, firstSeg]
  | none =>
    cases ht : stripScheme httpChars config_url with
    | some r =>
      have hd : config_url.drop 7 = r := by
        have := stripScheme_drop ht
        rwa [length_httpChars] at this
      simp [Option.orElse, splitNext_eq, hd, firstSeg]
    | none =>
      simp [Option.orElse]

/-- The source's per-argument test equals the spec's wording of it. -/
theorem arg_matches_eq_claim (config_url arg : List Char) :
    arg_matches config_url arg = claim_pred config_url arg := by
  unfold arg_matches claim_pred claim_host
  rw [allowed_host_eq_claim]
  by_cases hs : startsWithChars httpsChars arg
  · obtain ⟨r, hr⟩ : ∃ r, stripScheme httpsChars arg = some r := by
      unfold startsWithChars at hs
      cases h : stripScheme httpsChars arg with
      | none => rw [h] at hs; simp at hs
      | some r => exact ⟨r, rfl⟩
    have hd : arg.drop 8 = r := by
      have := stripScheme_drop hr
      rwa [length_httpsChars] at this
    simp [hs, hr, Option.orElse, splitNext_eq, hd, firstSeg]
  · by_cases ht : startsWithChars httpChars arg
    · obtain ⟨r, hr⟩ : ∃ r, stripScheme httpChars arg = some r := by
        unfold startsWithChars at ht
        cases h : stripScheme httpChars arg with
        | none => rw [h] at ht; simp at ht
        | some r => exact ⟨r, rfl⟩
      have hn : stripScheme httpsChars arg = none := by
        unfold startsWithChars at hs
        cases h : stripScheme httpsChars arg with
        | none => rfl
        | some r => rw [h] at hs; simp at hs
      have hd : arg.drop 7 = r := by
        have := stripScheme_drop hr
        rwa [length_httpChars] at this
      simp [hs, ht, hn, hr, Option.orElse, splitNext_eq, hd, firstSeg]
    · simp [hs, ht]

/-- **C1.** `extract_url_arg` returns the first element of `args` after
element 0 that starts with `https://` or `http://` and whose host portion
(prefix stripped, truncated at the first `/`) equals `allowed_host`, where
`allowed_host` is `config_url` with a leading `https://` or `http://`
stripped and truncated at the first `/` (the empty string if `config_url`
has neither prefix); it returns `none` when no element qualifies, and
element 0 is never inspected (the result does not depend on it). -/
theorem extract_url_arg_spec (args : List (List Char)) (config_url : List Char) :
    extract_url_arg args config_url =
      (args.drop 1).find? (claim_pred config_url) ∧
    ∀ x y rest, extract_url_arg (x :: rest) config_url =
      extract_url_arg (y :: rest) config_url := by
  have hpred : arg_matches config_url = claim_pred config_url :=
    funext fun arg => arg_matches_eq_claim config_url arg
  refine ⟨?_, ?_⟩
  · unfold extract_url_arg
    rw [hpred]
  · intro x y rest
    unfold extract_url_arg
    rfl

/-! ## Matcher edge cases -/

theorem startsWithChars_append (p r : List Char) :
    startsWithChars p (p ++ r) = true :=
  startsWithChars_iff.mpr ⟨r, rfl⟩

theorem not_startsWith_https_of_http (t : List Char) :
    startsWithChars httpsChars (httpChars ++ t) = false := by
  by_contra hf
  have h : startsWithChars httpsChars (httpChars ++ t) = true := by
    cases hb : startsWithChars httpsChars (httpChars ++ t)
    · exact absurd hb hf
    · rfl
  obtain ⟨r, hr⟩ := startsWithChars_iff.mp h
  have : httpChars ++ t = httpsChars ++ r := hr
  simp only [httpChars, httpsChars] at this
  simp [List.cons_append, List.cons.injEq] at this

theorem not_startsWith_http_of_https (t : List Char) :
    startsWithChars httpChars (httpsChars ++ t) = false := by
  by_contra hf
  have h : startsWithChars httpChars (httpsChars ++ t) = true := by
    cases hb : startsWithChars httpChars (httpsChars ++ t)
    · exact absurd hb hf
    · rfl
  obtain ⟨r, hr⟩ := startsWithChars_iff.mp h
  have : httpsChars ++ t = httpChars ++ r := hr
  simp only [httpChars, httpsChars] at this
  simp [List.cons_append, List.cons.injEq] at this

/-- A matching argument in second position is returned. -/
theorem extract_first_match (cfg exe arg : List Char) (rest : List (List Char))
    (h : arg_matches cfg arg = true) :
    extract_url_arg (exe :: arg :: rest) cfg = some arg := by
  unfold extract_url_arg
  simp [List.find?, h]

/-- With an empty `allowed_host`, the per-argument test accepts exactly the
prefixed arguments whose own stripped host is empty. -/
theorem arg_matches_of_empty_host (cfg arg : List Char)
    (hhost : allowed_host cfg = []) :
    arg_matches cfg arg =
      ((startsWithChars httpsChars arg || startsWithChars httpChars arg) &&
        (claim_host arg == ([] : List Char))) := by
  rw [arg_matches_eq_claim]
  unfold claim_pred
  rw [← allowed_host_eq_claim, hhost]

/-- **C4.** When `allowed_host` is empty (`config_url` has neither
`https://` nor `http://` prefix), an argument that starts with one of the
prefixes and whose stripped host is also empty (e.g. a bare `http://`) is
returned as a match — equal empty strings count as a host match; and when
no argument qualifies, the result is `none`. -/
theorem extract_url_arg_empty_host (cfg : List Char)
    (h1 : startsWithChars httpsChars cfg = false)
    (h2 : startsWithChars httpChars cfg = false) :
    allowed_host cfg = [] ∧
    (∀ exe arg rest,
      (startsWithChars httpsChars arg || startsWithChars httpChars arg) = true →
      claim_host arg = [] →
      extract_url_arg (exe :: arg :: rest) cfg = some arg) ∧
    (∀ args : List (List Char),
      (∀ arg ∈ args.drop 1,
        ¬((startsWithChars httpsChars arg || startsWithChars httpChars arg) = true ∧
          claim_host arg = [])) →
      extract_url_arg args cfg = none) := by
  have hhost : allowed_host cfg = [] := by
    rw [allowed_host_eq_claim]
    unfold claim_allowed_host
    simp [h1, h2]
  refine ⟨hhost, ?_, ?_⟩
  · intro exe arg rest hp hh
    refine extract_first_match cfg exe arg rest ?_
    rw [arg_matches_of_empty_host cfg arg hhost, hp, hh]
    simp
  · intro args hnone
    unfold extract_url_arg
    rw [List.find?_eq_none]
    intro arg hmem
    rw [arg_matches_of_empty_host cfg arg hhost]
    intro hf
    simp only [Bool.and_eq_true, Bool.or_eq_true, beq_iff_eq] at hf
    exact hnone arg hmem ⟨by simpa using hf.1, hf.2⟩

/-- Closed instance of `extract_url_arg_empty_host`: a prefixless
`config_url` and a bare `http://` argument. -/
theorem extract_url_arg_empty_host_witness :
    extract_url_arg ["exe".data, "http://".data] "example.com".data =
      some "http://".data :=
  (extract_url_arg_empty_host "example.com".data (by decide) (by decide)).2.1
    "exe".data "http://".data [] (by decide) (by decide)

/-- **C8.** Host matching is scheme-insensitive: an `http://` argument is
accepted against an `https://`-configured `config_url` (and vice versa)
whenever the stripped, `/`-truncated hosts are equal. -/
theorem extract_url_arg_scheme_insensitive (s t exe : List Char)
    (h : firstSeg s = firstSeg t) :
    extract_url_arg [exe, httpChars ++ t] (httpsChars ++ s) =
      some (httpChars ++ t) ∧
    extract_url_arg [exe, httpsChars ++ t] (httpChars ++ s) =
      some (httpsChars ++ t) := by
  constructor
  · refine extract_first_match _ exe _ [] ?_
    rw [arg_matches_eq_claim]
    unfold claim_pred claim_host claim_allowed_host
    rw [not_startsWith_https_of_http t, startsWithChars_append httpChars t,
      startsWithChars_append httpsChars s]
    have hdt : (httpChars ++ t).drop 7 = t := by
      have := List.drop_left httpChars t
      rwa [length_httpChars] at this
    have hds : (httpsChars ++ s).drop 8 = s := by
      have := List.drop_left httpsChars s
      rwa [length_httpsChars] at this
    simp [hdt, hds, h]
  · refine extract_first_match _ exe _ [] ?_
    rw [arg_matches_eq_claim]
    unfold claim_pred claim_host claim_allowed_host
    rw [not_startsWith_http_of_https t, startsWithChars_append httpsChars t]
    have hns : startsWithChars httpsChars (httpChars ++ s) = false :=
      not_startsWith_https_of_http s
    rw [hns, startsWithChars_append httpChars s]
    have hdt : (httpsChars ++ t).drop 8 = t := by
      have := List.drop_left httpsChars t
      rwa [length_httpsChars] at this
    have hds : (httpChars ++ s).drop 7 = s := by
      have := List.drop_left httpChars s
      rwa [length_httpChars] at this
    simp [hdt, hds, h]

/-- Closed instance of `extract_url_arg_scheme_insensitive` at concrete
hosts. -/
theorem extract_url_arg_scheme_insensitive_witness :
    extract_url_arg ["exe".data, httpChars ++ "example.com/x".data]
        (httpsChars ++ "example.com".data) =
      some (httpChars ++ "example.com/x".data) :=
  (extract_url_arg_scheme_insensitive "example.com".data "example.com/x".data
    "exe".data (by decide)).1

/-- **C9.** `extract_url_arg` is a total pure function: on every input it
returns an `Option`, and any returned value is one of the arguments after
element 0 (the inputs are not modified; the result is a copy of an input
element). -/
theorem extract_url_arg_total (args : List (List Char)) (cfg : List Char) :
    extract_url_arg args cfg = none ∨
      ∃ u, extract_url_arg args cfg = some u ∧ u ∈ args.drop 1 := by
  cases h : extract_url_arg args cfg with
  | none => exact Or.inl rfl
  | some u =>
    refine Or.inr ⟨u, rfl, ?_⟩
    exact List.mem_of_find?_eq_some h

/-- **C10.** For a `config_url` of exactly `https://` or `http://` (prefix
present, nothing after it), `allowed_host` is the empty string, so such a
configuration matches any argument whose stripped host is empty (e.g.
`http://` or `https:///path`). -/
theorem extract_url_arg_bare_scheme :
    allowed_host httpsChars = [] ∧ allowed_host httpChars = [] ∧
    ∀ exe arg rest,
      (startsWithChars httpsChars arg || startsWithChars httpChars arg) = true →
      claim_host arg = [] →
      extract_url_arg (exe :: arg :: rest) httpsChars = some arg ∧
      extract_url_arg (exe :: arg :: rest) httpChars = some arg := by
  refine ⟨by decide, by decide, ?_⟩
  intro exe arg rest hp hh
  constructor
  · refine extract_first_match _ exe arg rest ?_
    rw [arg_matches_of_empty_host _ arg (by decide), hp, hh]
    simp
  · refine extract_first_match _ exe arg rest ?_
    rw [arg_matches_of_empty_host _ arg (by decide), hp, hh]
    simp

/-- Closed instance of `extract_url_arg_bare_scheme`: config `https://`,
argument `https:///path`. -/
theorem extract_url_arg_bare_scheme_witness :
    extract_url_arg ["exe".data, "https:///path".data] httpsChars =
      some "https:///path".data :=
  ((extract_url_arg_bare_scheme).2.2 "exe".data "https:///path".data []
    (by decide) (by decide)).1

/-! ## The close-request policy -/

/-- **C2.** With `hide_on_close = false`, a close request terminates the
process with exit code 0 and the window is never hidden or minimized; with
`hide_on_close = true`, the process never terminates, the native close is
suppressed, and the hide sequence is: on macOS, when fullscreen, exit
fullscreen and wait 900 time-units then hide without minimizing; on
non-macOS platforms, minimize then hide, with Linux additionally exiting
fullscreen and restoring focus first when fullscreen. -/
theorem close_policy (p : Platform) (fs : Bool) :
    close_requested false p fs = ⟨some 0, false, []⟩ ∧
    (close_requested true p fs).exited = none ∧
    (close_requested true p fs).handled = true ∧
    (close_requested true Platform.macos true).ops =
      [WinOp.setFullscreenOp false, WinOp.sleepOp 900, WinOp.hideOp] ∧
    (close_requested true Platform.macos false).ops = [WinOp.hideOp] ∧
    WinOp.minimizeOp ∉ (close_requested true Platform.macos fs).ops ∧
    (close_requested true Platform.linux true).ops =
      [WinOp.setFullscreenOp false, WinOp.setFocusOp, WinOp.minimizeOp,
        WinOp.hideOp] ∧
    (close_requested true Platform.linux false).ops =
      [WinOp.minimizeOp, WinOp.hideOp] ∧
    (close_requested true Platform.other fs).ops =
      [WinOp.minimizeOp, WinOp.hideOp] := by
  cases p <;> cases fs <;> decide

/-! ## The window-state plugin configuration -/

/-- **C6.** When the configured initial state is fullscreen, exactly the
fullscreen flag is tracked; otherwise every flag except visibility is
tracked. -/
theorem state_flags_policy (f : Flag) :
    window_state_flags true f = (f == Flag.fullscreen) ∧
    window_state_flags false f = (f != Flag.visible) := by
  cases f <;> exact ⟨rfl, rfl⟩

/-! ## The deferred window-show task -/

/-- **C7.** When `start_to_tray` is set and the tray is enabled, no deferred
show task is scheduled (the window is never shown by the startup path);
otherwise a deferred task first sleeps `WINDOW_SHOW_DELAY = 50` time-units
and then shows the window. -/
theorem startup_show_policy (p : Platform)
    (init_fullscreen start_to_tray show_system_tray : Bool) :
    WINDOW_SHOW_DELAY = 50 ∧
    (start_to_tray = true ∧ show_system_tray = true →
      setup_show_task p init_fullscreen start_to_tray show_system_tray =
        none) ∧
    (start_to_tray = false ∨ show_system_tray = false →
      setup_show_task p init_fullscreen start_to_tray show_system_tray =
        some (WinOp.sleepOp WINDOW_SHOW_DELAY :: WinOp.showOp ::
          linux_focus_fixup p init_fullscreen)) := by
  refine ⟨rfl, ?_, ?_⟩
  · rintro ⟨rfl, rfl⟩
    rfl
  · intro h
    unfold setup_show_task effective_start_to_tray
    rcases h with rfl | rfl
    · rfl
    · cases start_to_tray <;> rfl

/-- Closed instances of `startup_show_policy`: tray-start suppresses the
task; a non-tray start schedules sleep-50-then-show. -/
theorem startup_show_policy_witness :
    setup_show_task Platform.macos false true true = none ∧
    setup_show_task Platform.macos false false true =
      some [WinOp.sleepOp 50, WinOp.showOp] :=
  ⟨(startup_show_policy Platform.macos false true true).2.1 ⟨rfl, rfl⟩,
   (startup_show_policy Platform.macos false false true).2.2 (Or.inl rfl)⟩

/-! ## Decimal formatting and window labels -/

theorem natDigitsAux_fuel :
    ∀ n f₁ f₂, n < f₁ → n < f₂ → natDigitsAux f₁ n = natDigitsAux f₂ n := by
  intro n
  induction n using Nat.strong_induction_on with
  | _ n ih =>
    intro f₁ f₂ h₁ h₂
    cases f₁ with
    | zero => exact absurd h₁ (Nat.not_lt_zero n)
    | succ a =>
      cases f₂ with
      | zero => exact absurd h₂ (Nat.not_lt_zero n)
      | succ b =>
        by_cases h10 : n < 10
        · simp [natDigitsAux, h10]
        · have hdiv : n / 10 < n := Nat.div_lt_self (by omega) (by omega)
          simp only [natDigitsAux, if_neg h10]
          rw [ih (n / 10) hdiv a b (by omega) (by omega)]

theorem natDigits_recurrence (n : Nat) :
    natDigits n =
      if n < 10 then [digitChar n]
      else natDigits (n / 10) ++ [digitChar (n % 10)] := by
  unfold natDigits
  by_cases h10 : n < 10
  · simp [natDigitsAux, h10]
  · have hdiv : n / 10 < n := Nat.div_lt_self (by omega) (by omega)
    simp only [natDigitsAux, if_neg h10]
    rw [natDigitsAux_fuel (n / 10) n (n / 10 + 1) (by omega) (by omega)]
    rfl

theorem digitVal_digitChar (n : Nat) (h : n < 10) :
    (digitChar n).toNat - 48 = n := by
  interval_cases n <;> rfl

theorem digitsVal_append (ds : List Char) (c : Char) :
    digitsVal (ds ++ [c]) = 10 * digitsVal ds + (c.toNat - 48) := by
  unfold digitsVal
  rw [List.foldl_append]
  rfl

theorem digitsVal_natDigits (n : Nat) : digitsVal (natDigits n) = n := by
  induction n using Nat.strong_induction_on with
  | _ n ih =>
    rw [natDigits_recurrence]
    by_cases h10 : n < 10
    · rw [if_pos h10]
      have hsingle : digitsVal [digitChar n] = (digitChar n).toNat - 48 := by
        unfold digitsVal
        simp [List.foldl]
      rw [hsingle, digitVal_digitChar n h10]
    · have hdiv : n / 10 < n := Nat.div_lt_self (by omega) (by omega)
      rw [if_neg h10, digitsVal_append, ih (n / 10) hdiv,
        digitVal_digitChar (n % 10) (Nat.mod_lt _ (by omega))]
      omega

theorem natDigits_injective : Function.Injective natDigits := by
  intro a b h
  have hv := congrArg digitsVal h
  rwa [digitsVal_natDigits, digitsVal_natDigits] at hv

theorem window_label_injective : Function.Injective window_label := by
  intro a b h
  unfold window_label at h
  exact natDigits_injective (List.append_cancel_left h)

theorem natDigits_ne_nil (n : Nat) : natDigits n ≠ [] := by
  rw [natDigits_recurrence]
  by_cases h10 : n < 10 <;> simp [h10]

theorem window_label_ne_pake (n : Nat) : window_label n ≠ "pake".data := by
  intro h
  have hlen := congrArg List.length h
  rw [window_label, List.length_append] at hlen
  have h5 : ("pake-".data).length = 5 := rfl
  have h4 : ("pake".data).length = 4 := rfl
  rw [h5, h4] at hlen
  have hpos : 0 < (natDigits n).length :=
    List.length_pos.mpr (natDigits_ne_nil n)
  omega

/-! ## The window counter -/

theorem run_ids_replicate (n : Nat) :
    ∀ c, c + n < USIZE_MOD →
      run_ids c (List.replicate n true) =
        (c + n, (List.range n).map (fun i => c + i)) := by
  induction n with
  | zero => intro c _; simp [run_ids]
  | succ m ih =>
    intro c hc
    rw [List.replicate_succ]
    have hmod : (c + 1) % USIZE_MOD = c + 1 := Nat.mod_eq_of_lt (by omega)
    have hstep : run_ids c (true :: List.replicate m true) =
        ((run_ids ((c + 1) % USIZE_MOD) (List.replicate m true)).1,
          c :: (run_ids ((c + 1) % USIZE_MOD) (List.replicate m true)).2) := rfl
    rw [hstep, hmod, ih (c + 1) (by omega)]
    have h1 : c + 1 + m = c + (m + 1) := by omega
    have h2 : c :: (List.range m).map (fun i => c + 1 + i) =
        (List.range (m + 1)).map (fun i => c + i) := by
      rw [List.range_succ_eq_map, List.map_cons, List.map_map]
      have hc0 : c + 0 = c := rfl
      have hf : ((fun i => c + i) ∘ Nat.succ) = fun i => c + 1 + i := by
        funext i
        simp [Function.comp]
        omega
      rw [hc0, hf]
    simp only []
    rw [h1, h2]

theorem run_ids_counter_le (ms : List Bool) :
    ∀ c, c + ms.length < USIZE_MOD → c ≤ (run_ids c ms).1 := by
  induction ms with
  | nil => intro c _; exact Nat.le_refl c
  | cons b ms ih =>
    intro c hc
    simp only [List.length_cons] at hc
    cases b
    · exact ih c (by omega)
    · have hmod : (c + 1) % USIZE_MOD = c + 1 := Nat.mod_eq_of_lt (by omega)
      show c ≤ (run_ids ((c + 1) % USIZE_MOD) ms).1
      rw [hmod]
      have := ih (c + 1) (by omega)
      omega

theorem run_ids_mem_ge (ms : List Bool) :
    ∀ c i, c + ms.length < USIZE_MOD → i ∈ (run_ids c ms).2 → c ≤ i := by
  induction ms with
  | nil => intro c i _ h; simp [run_ids] at h
  | cons b ms ih =>
    intro c i hc h
    simp only [List.length_cons] at hc
    cases b
    · exact ih c i (by omega) h
    · have hmod : (c + 1) % USIZE_MOD = c + 1 := Nat.mod_eq_of_lt (by omega)
      have h' : i ∈ c :: (run_ids ((c + 1) % USIZE_MOD) ms).2 := h
      rw [hmod] at h'
      simp only [List.mem_cons] at h'
      rcases h' with rfl | h'
      · exact Nat.le_refl i
      · have := ih (c + 1) i (by omega) h'
        omega

theorem run_ids_pairwise (ms : List Bool) :
    ∀ c, c + ms.length < USIZE_MOD → (run_ids c ms).2.Pairwise (· < ·) := by
  induction ms with
  | nil => intro c _; simp [run_ids]
  | cons b ms ih =>
    intro c hc
    simp only [List.length_cons] at hc
    cases b
    · exact ih c (by omega)
    · have hmod : (c + 1) % USIZE_MOD = c + 1 := Nat.mod_eq_of_lt (by omega)
      show (c :: (run_ids ((c + 1) % USIZE_MOD) ms).2).Pairwise (· < ·)
      rw [hmod]
      simp only [List.pairwise_cons]
      refine ⟨?_, ih (c + 1) (by omega)⟩
      intro i hi
      have := run_ids_mem_ge ms (c + 1) i (by omega) hi
      omega

/-- **C5 counterexample.** The claim fails on the wrapping `AtomicUsize`
counter: from counter value `2^64 − 1` (`usize::MAX`), a matched launch
issues id `2^64 − 1` and `fetch_add` wraps the counter to 0, so the next
launch is issued id 0 — the counter is not monotonically non-decreasing
for the life of the process, and from there the ids `1, 2, …` (and their
labels) are reissued. -/
theorem window_counter_wrap_counterexample :
    (run_ids (2 ^ 64 - 1) [true, true]).2 = [2 ^ 64 - 1, 0] ∧
    (run_ids (2 ^ 64 - 1) [true, true]).1 = 1 ∧
    ¬(2 ^ 64 - 1 ≤ (run_ids (2 ^ 64 - 1) [true]).1) := by
  refine ⟨?_, ?_, ?_⟩ <;> decide

/-- **C5 (amended).** Over `N` second-instance launches each carrying a
matching URL, with `N` below the counter's wrap bound
(`WINDOW_COUNTER_INIT + N < 2^64`, i.e. `N < usize::MAX`), the issued
labels are `pake-1`, …, `pake-N`: pairwise distinct with strictly
increasing numeric suffixes starting at 1; the counter is monotonically
non-decreasing and an issued id is never reused over any launch sequence
short enough not to wrap, and the primary label `pake` is never
reissued. -/
theorem window_counter_spec (N : Nat)
    (hN : WINDOW_COUNTER_INIT + N < USIZE_MOD) :
    run_labels WINDOW_COUNTER_INIT (List.replicate N true) =
      (List.range N).map (fun i => window_label (i + 1)) ∧
    (run_ids WINDOW_COUNTER_INIT (List.replicate N true)).2.Pairwise (· < ·) ∧
    (run_labels WINDOW_COUNTER_INIT
      (List.replicate N true)).Pairwise (fun a b => a ≠ b) ∧
    (∀ l ∈ run_labels WINDOW_COUNTER_INIT (List.replicate N true),
      l ≠ "pake".data) ∧
    (∀ c ms, c + ms.length < USIZE_MOD → c ≤ (run_ids c ms).1) ∧
    (∀ c ms, c + ms.length < USIZE_MOD →
      (run_ids c ms).2.Pairwise (· < ·)) ∧
    window_label 1 = "pake-1".data := by
  have hrep : WINDOW_COUNTER_INIT + (List.replicate N true).length <
      USIZE_MOD := by
    simpa using hN
  have hlabels : run_labels WINDOW_COUNTER_INIT (List.replicate N true) =
      (List.range N).map (fun i => window_label (i + 1)) := by
    unfold run_labels
    rw [run_ids_replicate N WINDOW_COUNTER_INIT hN]
    simp only [List.map_map]
    congr 1
    funext i
    simp only [Function.comp, WINDOW_COUNTER_INIT]
    rw [Nat.add_comm 1 i]
  refine ⟨hlabels, run_ids_pairwise _ _ hrep, ?_, ?_, ?_, ?_, by decide⟩
  · unfold run_labels
    rw [List.pairwise_map]
    refine (run_ids_pairwise _ WINDOW_COUNTER_INIT hrep).imp ?_
    intro a b hab hlab
    exact absurd (window_label_injective hlab) (Nat.ne_of_lt hab)
  · intro l hl
    unfold run_labels at hl
    rw [List.mem_map] at hl
    obtain ⟨i, _, rfl⟩ := hl
    exact window_label_ne_pake i
  · intro c ms hc
    exact run_ids_counter_le ms c hc
  · intro c ms hc
    exact run_ids_pairwise ms c hc

/-- Closed instance of `window_counter_spec`: with two matched launches the
first issued label is `pake-1`, and it is not the primary label. -/
theorem window_counter_spec_witness :
    window_label 1 ∈ run_labels WINDOW_COUNTER_INIT (List.replicate 2 true) ∧
    window_label 1 ≠ "pake".data :=
  ⟨by decide,
   (window_counter_spec 2 (by decide)).2.2.2.1 (window_label 1) (by decide)⟩

/-! ## The single-instance callback -/

/-- **C3.** For every matcher-accepted argument string, the URL-parse step
never fails (the match already validated the `http(s)://host` shape, under
the spec's model of the external parser), so the handler never reaches the
panic of `.unwrap()`; and a window-build failure is silently swallowed:
no new window appears and no error is surfaced. -/
theorem second_instance_swallows (args : List (List Char)) (cfg : List Char)
    (c : Nat) (primary : Bool) (url : List Char)
    (h : extract_url_arg args cfg = some url) :
    url_parse_ok url = true ∧
    (second_instance_handler args cfg c url_parse_ok false primary).2 =
      SIResult.swallowed ∧
    ∀ b, (second_instance_handler args cfg c url_parse_ok b primary).2 ≠
      SIResult.panicked := by
  have h' : (args.drop 1).find? (arg_matches cfg) = some url := h
  have hp : arg_matches cfg url = true := List.find?_some h'
  have hpref : url_parse_ok url = true := by
    rw [arg_matches_eq_claim] at hp
    unfold claim_pred at hp
    unfold url_parse_ok
    simp only [Bool.and_eq_true] at hp
    exact hp.1
  refine ⟨hpref, ?_, ?_⟩
  · simp [second_instance_handler, h, hpref]
  · intro b
    cases b <;> simp [second_instance_handler, h, hpref]

/-- Closed instance of `second_instance_swallows`: a matched URL parses,
and a failed build yields no window and no error. -/
theorem second_instance_swallows_witness :
    url_parse_ok "https://example.com".data = true ∧
    (second_instance_handler ["exe".data, "https://example.com".data]
      "https://example.com".data 1 url_parse_ok false false).2 =
      SIResult.swallowed := by
  have h := second_instance_swallows ["exe".data, "https://example.com".data]
    "https://example.com".data 1 false "https://example.com".data (by decide)
  exact ⟨h.1, h.2.1⟩

end Pake
